import Mathlib

/-!
Verification of the credential-resolution and image-pull subsystem of the
container-image-csi-driver repository, through a shallow embedding of the Go
source into Lean.  Go strings are byte sequences; they are modelled as
`List Nat` with each element a byte value.  External-process spawns, JSON
parsing and the CRI runtime are modelled as explicit oracle parameters, so
that every function of the embedding stays executable.
-/

namespace ImageCsi

/-- A Go string, as its byte sequence. -/
abbrev GoStr := List Nat

/-- Byte sequence of an ASCII string literal. -/
def goStr (s : String) : GoStr := s.data.map Char.toNat

/-- Go strings.Split for a one-byte separator.  Always returns at least one part. -/
def splitOnByte (c : Nat) : GoStr → List GoStr
  | [] => [[]]
  | b :: rest =>
    match splitOnByte c rest with
    | [] => [[]]
    | h :: t => if b = c then [] :: h :: t else (b :: h) :: t

/-- Inverse of `splitOnByte`: interleave the parts with the separator byte. -/
def joinByte (c : Nat) : List GoStr → GoStr
  | [] => []
  | [x] => x
  | x :: y :: rest => x ++ c :: joinByte c (y :: rest)

/-- Go strings.SplitN with n = 2, for a one-byte separator. -/
def splitN2Byte (c : Nat) : GoStr → List GoStr
  | [] => [[]]
  | b :: rest =>
    if b = c then [[], rest]
    else
      match splitN2Byte c rest with
      | [] => [[b]]
      | h :: t => (b :: h) :: t

/-- Go strings.TrimPrefix. -/
def trimPre (s pre : GoStr) : GoStr := if pre.isPrefixOf s then s.drop pre.length else s

/-- Go strings.Index for byte strings: index of the first occurrence, if any. -/
def idxOfSub (s sub : GoStr) : Option Nat :=
  if sub.isPrefixOf s then some 0
  else
    match s with
    | [] => none
    | _ :: rest => (idxOfSub rest sub).map (· + 1)

/-- Go strings.Contains. -/
def containsSub (s sub : GoStr) : Bool := (idxOfSub s sub).isSome

/-- Go strings.ContainsAny with the character set ".:" (used throughout the source). -/
def containsDotColon (s : GoStr) : Bool := s.any (fun b => b = 46 || b = 58)

end ImageCsi

namespace ImageCsi

/-- The byte values of the base64 standard alphabet
"ABCDEFGHIJKLMNOPQRSTUVWXYZabcdefghijklmnopqrstuvwxyz0123456789+/". -/
def b64alpha : List Nat :=
  [65, 66, 67, 68, 69, 70, 71, 72, 73, 74, 75, 76, 77, 78, 79, 80, 81, 82, 83, 84,
   85, 86, 87, 88, 89, 90, 97, 98, 99, 100, 101, 102, 103, 104, 105, 106, 107, 108,
   109, 110, 111, 112, 113, 114, 115, 116, 117, 118, 119, 120, 121, 122, 48, 49, 50,
   51, 52, 53, 54, 55, 56, 57, 43, 47]

/-- Alphabet byte for a 6-bit group. -/
def b64enc (n : Nat) : Nat := b64alpha.getD n 0

/-- Position of a byte in the alphabet, used by decoding. -/
def b64idxa (b : Nat) : List Nat → Option Nat
  | [] => none
  | x :: xs => if x = b then some 0 else (b64idxa b xs).map (· + 1)

/-- Inverse alphabet lookup. -/
def b64idx (b : Nat) : Option Nat := b64idxa b b64alpha

/-- Go base64.StdEncoding.EncodeToString over byte strings. -/
def base64encode : GoStr → GoStr
  | [] => []
  | [a] => [b64enc (a / 4), b64enc (a % 4 * 16), 61, 61]
  | [a, b] => [b64enc (a / 4), b64enc (a % 4 * 16 + b / 16), b64enc (b % 16 * 4), 61]
  | a :: b :: c :: rest =>
    b64enc (a / 4) :: b64enc (a % 4 * 16 + b / 16) :: b64enc (b % 16 * 4 + c / 64) ::
      b64enc (c % 64) :: base64encode rest

/-- Go base64.StdEncoding.DecodeString over byte strings: length must be a multiple
of four, padding bytes 61 may close only the final quad.  (Like Go's non-strict
decoder, unused trailing bits of a final quad are ignored.) -/
def base64decode : GoStr → Option GoStr
  | [] => some []
  | c1 :: c2 :: c3 :: c4 :: rest =>
    match b64idx c1, b64idx c2 with
    | some x1, some x2 =>
      if c3 = 61 then
        if c4 = 61 then
          if rest = [] then some [x1 * 4 + x2 / 16] else none
        else none
      else
        match b64idx c3 with
        | some x3 =>
          if c4 = 61 then
            if rest = [] then some [x1 * 4 + x2 / 16, x2 % 16 * 16 + x3 / 4] else none
          else
            match b64idx c4 with
            | some x4 =>
              match base64decode rest with
              | some tail =>
                some ((x1 * 4 + x2 / 16) :: (x2 % 16 * 16 + x3 / 4) :: (x3 % 4 * 64 + x4) :: tail)
              | none => none
            | none => none
        | none => none
    | _, _ => none
  | _ => none

end ImageCsi

namespace ImageCsi

/-- cri.AuthConfig (k8s.io/cri-api), the auth record handed to the runtime. -/
structure CriAuth where
  username : GoStr
  password : GoStr
  auth : GoStr
  serverAddress : GoStr
  identityToken : GoStr
  registryToken : GoStr
deriving DecidableEq

/-- secret.AuthConfig (pkg/secret, part_002 revision): the keyring candidate type
consumed by remoteimage.Pull. -/
structure AuthCfg where
  username : GoStr
  password : GoStr
  auth : GoStr
  registryToken : GoStr
deriving DecidableEq

/-- normalizeAuthConfig from pkg/secret/types.go: decode Auth into Username/Password
when only Auth is set; encode Auth from Username/Password when only they are set. -/
def normalizeAuthConfig (a : CriAuth) : CriAuth :=
  let a1 :=
    if a.auth ≠ [] ∧ a.username = [] ∧ a.password = [] then
      match base64decode a.auth with
      | some decoded =>
        match splitN2Byte 58 decoded with
        | [u, p] => { a with username := u, password := p }
        | _ => a
      | none => a
    else a
  if a1.username ≠ [] ∧ a1.password ≠ [] ∧ a1.auth = [] then
    { a1 with auth := base64encode (a1.username ++ 58 :: a1.password) }
  else a1

/-- extractRegistryDomain from pkg/remoteimage/pull.go. -/
def extractRegistryDomain (imageRef : GoStr) : GoStr :=
  let parts := splitOnByte 47 imageRef
  if parts.length = 1 then goStr "docker.io"
  else if containsDotColon (parts.headD []) then parts.headD []
  else goStr "docker.io"

/-- The registry-domain rule of the specification (consistent reading): the first
slash-delimited segment when the reference has a slash and that segment contains a
dot or a colon; the literal docker.io in every other case, including slash-free
references. -/
def registryDomainSpec (imageRef : GoStr) : GoStr :=
  let parts := splitOnByte 47 imageRef
  if 2 ≤ parts.length ∧ containsDotColon (parts.headD []) = true then parts.headD []
  else goStr "docker.io"

/-- splitImageName from pkg/secret/types.go. -/
def splitImageName (imageName : GoStr) : List GoStr :=
  let parts := splitOnByte 47 imageName
  if parts.length = 1 then [goStr "docker.io"]
  else if containsDotColon (parts.headD []) then [parts.headD []]
  else [goStr "docker.io"]

/-- splitImageName from the part_002 revision of the secret package: strings.SplitN
with n = 2, returning the image name itself when it has no slash. -/
def splitImageNameV2 (imageName : GoStr) : List GoStr :=
  let parts := splitN2Byte 47 imageName
  if parts.length < 2 then [imageName]
  else
    let registry := parts.headD []
    if containsSub registry (goStr ".") || containsSub registry (goStr ":") then [registry]
    else [goStr "docker.io"]

/-- Go map indexing cfg[key], with the map modelled as an association list. -/
def lookupA (cfg : List (GoStr × CriAuth)) (k : GoStr) : Option CriAuth :=
  match cfg with
  | [] => none
  | (k0, v) :: rest => if k0 = k then some v else lookupA rest k

/-- The cri.AuthConfig literal built inside matchRegistry: all entry fields are
copied but ServerAddress is set to the queried registry URL. -/
def copyEntry (entry : CriAuth) (registryURL : GoStr) : CriAuth :=
  { username := entry.username, password := entry.password, auth := entry.auth,
    serverAddress := registryURL, identityToken := entry.identityToken,
    registryToken := entry.registryToken }

/-- matchRegistry from pkg/secret/types.go: exact key, then the key with an
https:// prefix, then with an http:// prefix, then the first partial
(substring-either-way) match.  The Go map's iteration order in the partial pass
is modelled by the association-list order. -/
def matchRegistry (cfg : List (GoStr × CriAuth)) (registryURL : GoStr) : Option CriAuth :=
  match lookupA cfg registryURL with
  | some entry => some (normalizeAuthConfig (copyEntry entry registryURL))
  | none =>
    match lookupA cfg (goStr "https://" ++ registryURL) with
    | some entry => some (normalizeAuthConfig (copyEntry entry registryURL))
    | none =>
      match lookupA cfg (goStr "http://" ++ registryURL) with
      | some entry => some (normalizeAuthConfig (copyEntry entry registryURL))
      | none =>
        match cfg.find? (fun kv => containsSub registryURL kv.1 || containsSub kv.1 registryURL) with
        | some kv => some (normalizeAuthConfig (copyEntry kv.2 registryURL))
        | none => none

/-- formatRegistryAuth from pkg/remoteimage/pull.go. -/
def formatRegistryAuth (registryDomain : GoStr) (authConfig : AuthCfg) : CriAuth :=
  let auth0 : CriAuth :=
    { username := [], password := [], auth := [], serverAddress := registryDomain,
      identityToken := [], registryToken := authConfig.registryToken }
  if authConfig.auth ≠ [] then
    { auth0 with auth := authConfig.auth, username := authConfig.username,
                 password := authConfig.password }
  else
    let isECR := containsSub registryDomain (goStr ".dkr.ecr.") &&
      containsSub registryDomain (goStr ".amazonaws.com") &&
      decide (authConfig.username = goStr "AWS")
    let auth1 := { auth0 with username := authConfig.username }
    if isECR then
      match base64decode authConfig.password with
      | some decodedToken =>
        { auth1 with auth := base64encode (auth1.username ++ 58 :: decodedToken),
                     password := decodedToken }
      | none =>
        { auth1 with password := authConfig.password,
                     auth := base64encode (auth1.username ++ 58 :: authConfig.password) }
    else
      { auth1 with password := authConfig.password,
                   auth := base64encode (auth1.username ++ 58 :: authConfig.password) }

/-- The middle-parts loop of wildcardMatch (pkg/secret/plugin.go): each nonempty
part must occur, in order, in what remains of the string. -/
def matchMiddles (s : GoStr) (ps : List GoStr) : Bool :=
  match ps with
  | [] => true
  | p :: rest =>
    if p = [] then matchMiddles s rest
    else
      match idxOfSub s p with
      | none => false
      | some i => matchMiddles (s.drop (i + p.length)) rest

/-- wildcardMatch from pkg/secret/plugin.go: glob matching where 42 (the star
byte) matches zero or more bytes. -/
def wildcardMatch (s pattern : GoStr) : Bool :=
  let parts := splitOnByte 42 pattern
  if parts.length = 1 then decide (s = pattern)
  else
    let p0 := parts.headD []
    if p0.isPrefixOf s then
      let s1 := s.drop p0.length
      let rest := parts.tail
      let lastP := rest.getLastD []
      let mids := rest.dropLast
      if lastP ≠ [] then
        if lastP.isSuffixOf s1 then matchMiddles (s1.take (s1.length - lastP.length)) mids
        else false
      else matchMiddles s1 mids
    else false

/-- EnvVar from pkg/secret/plugin.go. -/
structure EnvVar where
  name : GoStr
  value : GoStr
deriving DecidableEq

/-- PluginConfig from pkg/secret/plugin.go. -/
structure PluginConfig where
  name : GoStr
  executable : GoStr
  args : List GoStr
  env : List EnvVar
  apiVersion : GoStr
  matchImages : List GoStr
deriving DecidableEq

/-- The observable data of one child-process spawn by executeCredentialHelper:
its argument vector (after the executable), its stdin payload and environment. -/
structure Invocation where
  executable : GoStr
  args : List GoStr
  stdin : GoStr
  env : List EnvVar
deriving DecidableEq

/-- What the spawned process did: captured stdout and stderr, and whether
starting, feeding or waiting on it failed. -/
structure ExecOutcome where
  stdout : GoStr
  stderr : GoStr
  waitErr : Bool
deriving DecidableEq

/-- filepath.Base for slash-separated paths: the last slash-delimited segment. -/
def baseName (path : GoStr) : GoStr := (splitOnByte 47 path).getLastD []

/-- isDockerCredentialHelper from pkg/secret/plugin.go. -/
def isDockerCredentialHelper (executable : GoStr) : Bool :=
  (goStr "docker-credential-").isPrefixOf (baseName executable)

/-- isECRCredentialHelper from pkg/secret/plugin.go. -/
def isECRCredentialHelper (executable : GoStr) : Bool :=
  (goStr "ecr-login").isSuffixOf (baseName executable) ||
    containsSub (baseName executable) (goStr "ecr-credential-helper")

/-- hasEnv from pkg/secret/plugin.go. -/
def hasEnv (env : List EnvVar) (n : GoStr) : Bool := env.any (fun e => e.name = n)

/-- enrichECREnvironment from pkg/secret/plugin.go; osAwsRegion stands for
os.Getenv("AWS_REGION") being nonempty in the daemon's environment. -/
def enrichECREnvironment (osAwsRegion : Bool) (plugin : PluginConfig) (serverURL : GoStr) :
    PluginConfig :=
  if hasEnv plugin.env (goStr "AWS_REGION") || osAwsRegion then plugin
  else
    if containsSub serverURL (goStr ".dkr.ecr.") && containsSub serverURL (goStr ".amazonaws.com") then
      let parts := splitOnByte 46 (trimPre serverURL (goStr "https://"))
      if 4 ≤ parts.length ∧ parts.getD 1 [] = goStr "dkr" ∧ parts.getD 2 [] = goStr "ecr" then
        { plugin with env := plugin.env ++ [⟨goStr "AWS_REGION", parts.getD 3 []⟩] }
      else plugin
    else plugin

/-- extractServerURL from pkg/secret/plugin.go. -/
def extractServerURL (image : GoStr) : Except Unit GoStr :=
  let imagePart := (splitOnByte 58 ((splitOnByte 64 image).headD [])).headD []
  let parts := splitOnByte 47 imagePart
  if parts.length = 1 then Except.ok (goStr "https://index.docker.io")
  else if containsDotColon (parts.headD []) then Except.ok (goStr "https://" ++ parts.headD [])
  else if 2 ≤ parts.length ∧ ¬containsDotColon (parts.headD []) = true then
    Except.ok (goStr "https://index.docker.io")
  else Except.error ()

/-- The argv, stdin and env with which executeCredentialHelper
(pkg/secret/plugin.go) spawns the helper process: argument vector [get],
the server URL plus a newline byte on stdin. -/
def credentialHelperInvocation (plugin : PluginConfig) (serverURL : GoStr) : Invocation :=
  { executable := plugin.executable, args := [goStr "get"], stdin := serverURL ++ [10],
    env := plugin.env }

/-- DockerCredentialHelperOutput from pkg/secret/plugin.go, as produced by the
JSON decoder. -/
structure HelperOutput where
  serverURL : GoStr
  username : GoStr
  secret : GoStr
deriving DecidableEq

/-- parseDockerCredentialHelperOutput from pkg/secret/plugin.go; the json
decoder is an oracle parameter. -/
def parseDockerCredentialHelperOutput (jsonHelper : GoStr → Option HelperOutput)
    (output : GoStr) (serverURL : GoStr) : Except Unit (Option CriAuth) :=
  match jsonHelper output with
  | none => Except.error ()
  | some ho =>
    if ho.username = [] ∧ ho.secret = [] then Except.ok none
    else
      let sa := if ho.serverURL ≠ [] then ho.serverURL else serverURL
      let authField :=
        if ho.username ≠ [] ∧ ho.secret ≠ [] then base64encode (ho.username ++ 58 :: ho.secret)
        else []
      Except.ok (some { username := ho.username, password := ho.secret, auth := authField,
                        serverAddress := sa, identityToken := [], registryToken := [] })

/-- callDockerCredentialHelper from pkg/secret/plugin.go.  The process spawn is
the oracle run; the invocation actually passed to it is returned alongside the
result so that theorems can inspect it. -/
def callDockerCredentialHelper (run : Invocation → ExecOutcome)
    (jsonHelper : GoStr → Option HelperOutput) (osAwsRegion : Bool)
    (plugin : PluginConfig) (image : GoStr) :
    Except Unit (Option CriAuth) × Option Invocation :=
  match extractServerURL image with
  | Except.error _ => (Except.error (), none)
  | Except.ok serverURL =>
    let inputURL := trimPre serverURL (goStr "https://")
    let plugin1 :=
      if isECRCredentialHelper plugin.executable then
        enrichECREnvironment osAwsRegion plugin serverURL
      else plugin
    let inv := credentialHelperInvocation plugin1 inputURL
    let out := run inv
    if out.waitErr then
      if out.stderr ≠ [] ∧ (containsSub out.stderr (goStr "credentials not found") ∨
          containsSub out.stderr (goStr "not found")) then
        (Except.ok none, some inv)
      else (Except.error (), some inv)
    else if out.stdout = [] then (Except.ok none, some inv)
    else (parseDockerCredentialHelperOutput jsonHelper out.stdout serverURL, some inv)

/-- extractRegistryFromImage from pkg/secret/plugin.go. -/
def extractRegistryFromImage (image : GoStr) : GoStr :=
  let imageNoDigest := (splitOnByte 64 image).headD []
  let parts := splitOnByte 47 imageNoDigest
  if parts.length = 1 then goStr "docker.io"
  else if containsDotColon (parts.headD []) then parts.headD []
  else goStr "docker.io"

/-- matchesPattern from pkg/secret/plugin.go. -/
def matchesPattern (s pattern : GoStr) : Bool :=
  decide (s = pattern) || wildcardMatch s pattern

/-- matchesImagePattern from pkg/secret/plugin.go: an empty pattern list matches
every image; otherwise the extracted registry must match some pattern. -/
def matchesImagePattern (image : GoStr) (patterns : List GoStr) : Bool :=
  if patterns = [] then true
  else
    let registry := extractRegistryFromImage image
    patterns.any (fun pat => matchesPattern registry pat)

/-- GetCredentialFromPlugin from pkg/secret/plugin.go.  The registered-plugin
map is modelled as a list; callP stands for the dispatch to
callDockerCredentialHelper / callCustomPlugin on one plugin. -/
def GetCredentialFromPlugin (callP : PluginConfig → Except Unit (Option CriAuth))
    (plugins : List PluginConfig) (image : GoStr) : Except Unit (Option CriAuth) :=
  match plugins with
  | [] => Except.ok none
  | p :: rest =>
    if matchesImagePattern image p.matchImages = false then
      GetCredentialFromPlugin callP rest image
    else
      match callP p with
      | Except.error _ => GetCredentialFromPlugin callP rest image
      | Except.ok none => GetCredentialFromPlugin callP rest image
      | Except.ok (some a) => Except.ok (some a)

/-- A parsed docker config of pkg/secret/cache.go: registry key to auth entry. -/
abbrev DockerConfigM := List (GoStr × CriAuth)

/-- The keyring values built by pkg/secret/cache.go: BasicDockerKeyring wraps a
list of configs, UnionDockerKeyring a list of keyrings. -/
inductive KeyringM where
  | basic (configs : List DockerConfigM)
  | union (ks : List KeyringM)

/-- corev1.DockerConfigJsonKey. -/
def dockerConfigJsonKey : GoStr := goStr ".dockerconfigjson"

/-- corev1.DockerConfigKey. -/
def dockerConfigKey : GoStr := goStr ".dockercfg"

/-- Go map indexing for secret data (string to string). -/
def lookupS (data : List (GoStr × GoStr)) (k : GoStr) : Option GoStr :=
  match data with
  | [] => none
  | (k0, v) :: rest => if k0 = k then some v else lookupS rest k

/-- parseDockerConfigFromSecretData from pkg/secret/cache.go: the
.dockerconfigjson key is consulted first when nonempty, then .dockercfg, else
an empty config; JSON failures are errors.  The two JSON decoders are oracle
parameters. -/
def parseDockerConfigFromSecretData (pj pc : GoStr → Option DockerConfigM)
    (data : List (GoStr × GoStr)) : Except Unit DockerConfigM :=
  let step2 : Except Unit DockerConfigM :=
    match lookupS data dockerConfigKey with
    | some bytes =>
      if bytes ≠ [] then
        match pc bytes with
        | some cfg => Except.ok cfg
        | none => Except.error ()
      else Except.ok []
    | none => Except.ok []
  match lookupS data dockerConfigJsonKey with
  | some bytes =>
    if bytes ≠ [] then
      match pj bytes with
      | some cfg => Except.ok cfg
      | none => Except.error ()
    else step2
  | none => step2

/-- makeDockerKeyringFromMap from pkg/secret/cache.go. -/
def makeDockerKeyringFromMap (pj pc : GoStr → Option DockerConfigM)
    (secretData : List (GoStr × GoStr)) : Except Unit KeyringM :=
  if secretData = [] then Except.ok (KeyringM.basic [])
  else
    match parseDockerConfigFromSecretData pj pc secretData with
    | Except.error e => Except.error e
    | Except.ok cred => Except.ok (KeyringM.basic [cred])

/-- keyringStore.GetDockerKeyring from pkg/secret/cache.go: parse the per-mount
secretData into a preferred keyring (propagating its error), else pair the
daemon keyring with a fresh empty keyring. -/
def getDockerKeyringStore (daemon : KeyringM) (pj pc : GoStr → Option DockerConfigM)
    (secretData : List (GoStr × GoStr)) : Except Unit KeyringM :=
  if secretData ≠ [] then
    match makeDockerKeyringFromMap pj pc secretData with
    | Except.error e => Except.error e
    | Except.ok preferred => Except.ok (KeyringM.union [preferred, daemon])
  else Except.ok (KeyringM.union [daemon, KeyringM.basic []])

/-- The aggregate error shape of remoteimage.Pull: success, the error of a
single anonymous attempt, or utilerrors.NewAggregate of the candidate attempt
errors. -/
inductive PullRes (Err : Type) where
  | ok
  | single (e : Err)
  | agg (es : List Err)
deriving DecidableEq

/-- The puller of pkg/remoteimage/pull.go: the image reference with and without
its tag, the keyring Lookup, and the runtime's PullImage outcome per request
(none is success; the argument is the Auth attached to the request, none being
an anonymous pull). -/
structure PullerM (Err : Type) where
  imageWithTag : GoStr
  imageWithoutTag : GoStr
  lookup : GoStr → List AuthCfg × Bool
  respond : Option CriAuth → Option Err

/-- The candidate loop of remoteimage.Pull: formats each candidate, issues the
pull, stops at the first success.  Returns the attempted auth records in order,
the collected errors, and whether some attempt succeeded. -/
def pullLoop {Err : Type} (respond : Option CriAuth → Option Err) (registryDomain : GoStr) :
    List AuthCfg → List CriAuth × List Err × Bool
  | [] => ([], [], false)
  | c :: rest =>
    let auth := formatRegistryAuth registryDomain c
    match respond (some auth) with
    | none => ([auth], [], true)
    | some e =>
      let r := pullLoop respond registryDomain rest
      (auth :: r.1, e :: r.2.1, r.2.2)

/-- remoteimage.Pull from pkg/remoteimage/pull.go.  Returns the trace of
PullImage requests (the Auth of each, none for the anonymous pull) and the
returned error: an anonymous pull when the lookup reports no credentials, else
the candidate walk whose exhaustion yields NewAggregate of the attempt errors
(which is nil for an empty error list). -/
def Pull {Err : Type} (p : PullerM Err) : List (Option CriAuth) × PullRes Err :=
  let lk := p.lookup p.imageWithoutTag
  if lk.2 = false then
    ([none],
      match p.respond none with
      | none => PullRes.ok
      | some e => PullRes.single e)
  else
    let registryDomain := extractRegistryDomain p.imageWithoutTag
    let r := pullLoop p.respond registryDomain lk.1
    (r.1.map some,
      if r.2.2 then PullRes.ok
      else
        match r.2.1 with
        | [] => PullRes.ok
        | e :: es => PullRes.agg (e :: es))

/-- The formatted candidates remoteimage.Pull would attempt, in order. -/
def pullFmts {Err : Type} (p : PullerM Err) : List CriAuth :=
  ((p.lookup p.imageWithoutTag).1).map
    (formatRegistryAuth (extractRegistryDomain p.imageWithoutTag))

/-- Occurrence of a list of fragments, in order and without overlap, inside a
byte string (proof infrastructure for the glob matcher). -/
inductive PartsIn : GoStr → List GoStr → Prop where
  | nil (s : GoStr) : PartsIn s []
  | cons (a b p : GoStr) (ps : List GoStr) (hb : PartsIn b ps) : PartsIn (a ++ p ++ b) (p :: ps)

/-- A credential candidate on which one of normalizeAuthConfig's two rules
fires: either auth is absent with username and password present, or username
and password are absent with auth base64-decoding to a colon-separated pair. -/
def wellFormedCred (a : CriAuth) : Prop :=
  (a.auth = [] ∧ a.username ≠ [] ∧ a.password ≠ []) ∨
  (a.username = [] ∧ a.password = [] ∧
    ∃ d u p, base64decode a.auth = some d ∧ splitN2Byte 58 d = [u, p])

/-- Concrete candidate for exercising the pull walk of claim C1. -/
def c1CandX : AuthCfg := ⟨goStr "u", goStr "p", [], []⟩

/-- Concrete puller whose keyring yields one candidate and whose runtime fails
every pull (claim C1's counterexample input). -/
def c1PullerX : PullerM Nat :=
  { imageWithTag := goStr "reg.io/app:1", imageWithoutTag := goStr "reg.io/app",
    lookup := fun _ => ([c1CandX], true), respond := fun _ => some 7 }

/-- Concrete puller whose keyring reports no credentials and whose runtime
succeeds (claim C1's witness input). -/
def c1PullerW : PullerM Nat :=
  { imageWithTag := goStr "reg.io/app:1", imageWithoutTag := goStr "reg.io/app",
    lookup := fun _ => ([], false), respond := fun _ => none }

/-- Concrete inconsistent candidate (auth disagrees with username/password),
left unchanged by normalizeAuthConfig (claim C4's counterexample input). -/
def c4AuthX : CriAuth := ⟨goStr "u", goStr "p", base64encode (goStr "x:y"), [], [], []⟩

/-- Concrete candidate with username/password only (claim C4's witness input). -/
def c4AuthW : CriAuth := ⟨goStr "u", goStr "p", [], [], [], []⟩

/-- Concrete ECR-style provider candidate: username AWS, password a base64
authorization token (claim C5's inputs). -/
def c5CandX : AuthCfg := ⟨goStr "AWS", base64encode (goStr "tok"), [], []⟩

/-- Concrete puller for an ECR image whose keyring yields the ECR candidate and
whose runtime succeeds at once (claim C5's counterexample input). -/
def c5PullerX : PullerM Nat :=
  { imageWithTag := goStr "1.dkr.ecr.r.amazonaws.com/app:1",
    imageWithoutTag := goStr "1.dkr.ecr.r.amazonaws.com/app",
    lookup := fun _ => ([c5CandX], true), respond := fun _ => none }

/-- Concrete docker-credential helper plugin (claim C6's witness input). -/
def c6PluginW : PluginConfig :=
  { name := goStr "docker-credential-test",
    executable := goStr "/bin/docker-credential-test",
    args := [], env := [], apiVersion := [], matchImages := [] }

/-- Concrete execution outcome: the helper exits nonzero with the conventional
credentials-not-found message on stderr (claim C6's witness input). -/
def c6RunW : Invocation → ExecOutcome :=
  fun _ => { stdout := [], stderr := goStr "credentials not found", waitErr := true }

/-- Concrete one-entry docker config (claim C7's witness input). -/
def c7EntryW : CriAuth := ⟨goStr "usr", goStr "pwd", [], goStr "stored.addr", [], []⟩

/-- Concrete docker config map (claim C7's witness input). -/
def c7CfgW : List (GoStr × CriAuth) := [(goStr "reg.example.com", c7EntryW)]

/-- Concrete one-entry docker config under a scheme-prefixed key (claim C9's
witness input). -/
def c9CfgW : List (GoStr × CriAuth) :=
  [(goStr "https://reg.example.com", ⟨goStr "usr", goStr "pwd", [], goStr "other", [], []⟩)]

/-- Concrete plugin whose invocation always fails (claim C10's witness input). -/
def c10PluginW : PluginConfig :=
  { name := goStr "helper", executable := goStr "/bin/helper",
    args := [], env := [], apiVersion := [], matchImages := [] }

end ImageCsi

namespace ImageCsi

theorem splitOnByte_ne_nil (c : Nat) (s : GoStr) : splitOnByte c s ≠ [] := by
  cases s with
  | nil => simp [splitOnByte]
  | cons b rest =>
    simp only [splitOnByte]
    cases h : splitOnByte c rest with
    | nil => simp
    | cons x t =>
      by_cases hb : b = c <;> simp [hb]

theorem joinByte_splitOnByte (c : Nat) (s : GoStr) : joinByte c (splitOnByte c s) = s := by
  induction s with
  | nil => simp [splitOnByte, joinByte]
  | cons b rest ih =>
    simp only [splitOnByte]
    cases h : splitOnByte c rest with
    | nil => exact absurd h (splitOnByte_ne_nil c rest)
    | cons x t =>
      rw [h] at ih
      by_cases hb : b = c
      · subst hb
        simp [joinByte, ih]
      · simp only [hb, if_false]
        cases t with
        | nil => simpa [joinByte] using congrArg (b :: ·) ih
        | cons y t2 => simpa [joinByte] using congrArg (b :: ·) ih

theorem mem_of_mem_splitOnByte (c : Nat) (s : GoStr) (p : GoStr) (b : Nat)
    (hp : p ∈ splitOnByte c s) (hb : b ∈ p) : b ∈ s := by
  induction s generalizing p with
  | nil =>
    simp only [splitOnByte, List.mem_singleton] at hp
    subst hp
    simp at hb
  | cons x rest ih =>
    simp only [splitOnByte] at hp
    cases h : splitOnByte c rest with
    | nil => exact absurd h (splitOnByte_ne_nil c rest)
    | cons y t =>
      rw [h] at hp
      have hp2 : p ∈ (if x = c then [] :: y :: t else (x :: y) :: t) := hp
      clear hp
      have hymem : y ∈ splitOnByte c rest := by rw [h]; exact List.mem_cons_self _ _
      by_cases hx : x = c
      · rw [if_pos hx] at hp2
        simp only [List.mem_cons] at hp2
        rcases hp2 with rfl | rfl | hp2
        · simp at hb
        · exact List.mem_cons_of_mem _ (ih _ hymem hb)
        · exact List.mem_cons_of_mem _
            (ih p (by rw [h]; exact List.mem_cons_of_mem _ hp2) hb)
      · rw [if_neg hx] at hp2
        simp only [List.mem_cons] at hp2
        rcases hp2 with rfl | hp2
        · rcases List.mem_cons.mp hb with rfl | hb2
          · exact List.mem_cons_self _ _
          · exact List.mem_cons_of_mem _ (ih y hymem hb2)
        · exact List.mem_cons_of_mem _
            (ih p (by rw [h]; exact List.mem_cons_of_mem _ hp2) hb)

theorem splitN2Byte_eq_two (c : Nat) (s : GoStr) (x y : GoStr)
    (h : splitN2Byte c s = [x, y]) : s = x ++ c :: y := by
  induction s generalizing x y with
  | nil => simp [splitN2Byte] at h
  | cons b rest ih =>
    by_cases hb : b = c
    · rw [splitN2Byte, if_pos hb] at h
      simp only [List.cons.injEq, and_true] at h
      obtain ⟨h1, h2⟩ := h
      subst h1
      subst h2
      simp [hb]
    · rw [splitN2Byte, if_neg hb] at h
      cases h2 : splitN2Byte c rest with
      | nil =>
        rw [h2] at h
        simp at h
      | cons p t =>
        rw [h2] at h
        cases t with
        | nil => simp at h
        | cons q t2 =>
          cases t2 with
          | cons r t3 => simp at h
          | nil =>
            simp only [List.cons.injEq, and_true] at h
            obtain ⟨hx2, hy2⟩ := h
            subst hx2
            subst hy2
            have := ih p q h2
            simp [this]

theorem isPrefixOf_append_self (p t : GoStr) : p.isPrefixOf (p ++ t) = true := by
  induction p with
  | nil => simp [List.isPrefixOf]
  | cons a as ih => simpa [List.isPrefixOf] using ih

theorem isPrefixOf_exists (p s : GoStr) (h : p.isPrefixOf s = true) :
    ∃ t, s = p ++ t := by
  have hp : p <+: s := by simpa using h
  obtain ⟨t, ht⟩ := hp
  exact ⟨t, ht.symm⟩

theorem drop_append_of_le (u b : GoStr) (k : Nat) (h : k ≤ u.length) :
    (u ++ b).drop k = u.drop k ++ b := by
  induction u generalizing k with
  | nil =>
    have hk : k = 0 := Nat.le_zero.mp (by simpa using h)
    subst hk
    simp
  | cons a as ih =>
    cases k with
    | zero => simp
    | succ k2 => simpa using ih k2 (Nat.le_of_succ_le_succ h)

theorem idxOfSub_of_append (a p b : GoStr) :
    ∃ i t, idxOfSub (a ++ p ++ b) p = some i ∧ (a ++ p ++ b).drop (i + p.length) = t ++ b := by
  induction a with
  | nil =>
    refine ⟨0, [], ?_, ?_⟩
    · rw [List.nil_append, idxOfSub.eq_def, if_pos (isPrefixOf_append_self p b)]
    · simpa using drop_append_of_le p b p.length (le_refl _)
  | cons x a2 ih =>
    by_cases hpre : p.isPrefixOf (x :: a2 ++ p ++ b) = true
    · refine ⟨0, ((x :: a2) ++ p).drop p.length, ?_, ?_⟩
      · rw [idxOfSub.eq_def, if_pos hpre]
      · rw [Nat.zero_add]
        have hlen : p.length ≤ ((x :: a2) ++ p).length := by
          simp only [List.length_append, List.length_cons]
          omega
        have := drop_append_of_le ((x :: a2) ++ p) b p.length hlen
        simpa [List.append_assoc] using this
    · obtain ⟨i, t, hi, hd⟩ := ih
      refine ⟨i + 1, t, ?_, ?_⟩
      · rw [idxOfSub.eq_def, if_neg hpre]
        simp only [List.cons_append]
        have hi2 : idxOfSub (a2 ++ (p ++ b)) p = some i := by
          simpa [List.append_assoc] using hi
        simp [hi2]
      · have hstep : (x :: a2 ++ p ++ b).drop (i + 1 + p.length) = (a2 ++ p ++ b).drop (i + p.length) := by
          simp only [List.cons_append]
          rw [show i + 1 + p.length = (i + p.length) + 1 from by omega]
          simp
        rw [hstep, hd]

theorem mem_of_isPrefixOf (p s : GoStr) (h : p.isPrefixOf s = true) (b : Nat) (hb : b ∈ p) :
    b ∈ s := by
  obtain ⟨t, rfl⟩ := isPrefixOf_exists p s h
  exact List.mem_append_left t hb

theorem containsSub_nil_false (sub : GoStr) (h : sub ≠ []) : containsSub [] sub = false := by
  cases sub with
  | nil => simp at h
  | cons a as => simp [containsSub, idxOfSub, List.isPrefixOf]

end ImageCsi


namespace ImageCsi

theorem b64idx_b64enc : ∀ x : Fin 64, b64idx (b64enc x.val) = some x.val := by decide

theorem b64enc_ne_pad : ∀ x : Fin 64, b64enc x.val ≠ 61 := by decide

theorem b64idx_enc_of_lt (x : Nat) (h : x < 64) : b64idx (b64enc x) = some x :=
  b64idx_b64enc ⟨x, h⟩

theorem b64enc_ne_pad_of_lt (x : Nat) (h : x < 64) : b64enc x ≠ 61 :=
  b64enc_ne_pad ⟨x, h⟩

theorem base64_roundtrip :
    ∀ s : GoStr, (∀ b ∈ s, b < 256) → base64decode (base64encode s) = some s
  | [], _ => rfl
  | [a], h => by
    have ha : a < 256 := h a (by simp)
    have e1 := b64idx_enc_of_lt (a / 4) (by omega)
    have e2 := b64idx_enc_of_lt (a % 4 * 16) (by omega)
    simp [base64encode, base64decode, e1, e2]
    omega
  | [a, b], h => by
    have ha : a < 256 := h a (by simp)
    have hb : b < 256 := h b (by simp)
    have e1 := b64idx_enc_of_lt (a / 4) (by omega)
    have e2 := b64idx_enc_of_lt (a % 4 * 16 + b / 16) (by omega)
    have e3 := b64idx_enc_of_lt (b % 16 * 4) (by omega)
    have n3 := b64enc_ne_pad_of_lt (b % 16 * 4) (by omega)
    simp [base64encode, base64decode, e1, e2, e3, n3]
    omega
  | a :: b :: c :: d :: rest, h => by
    have ha : a < 256 := h a (by simp)
    have hb : b < 256 := h b (by simp)
    have hc : c < 256 := h c (by simp)
    have e1 := b64idx_enc_of_lt (a / 4) (by omega)
    have e2 := b64idx_enc_of_lt (a % 4 * 16 + b / 16) (by omega)
    have e3 := b64idx_enc_of_lt (b % 16 * 4 + c / 64) (by omega)
    have e4 := b64idx_enc_of_lt (c % 64) (by omega)
    have n3 := b64enc_ne_pad_of_lt (b % 16 * 4 + c / 64) (by omega)
    have n4 := b64enc_ne_pad_of_lt (c % 64) (by omega)
    have ih := base64_roundtrip (d :: rest) (fun x hx => h x (by simp [hx]))
    simp [base64encode, base64decode, e1, e2, e3, e4, n3, n4, ih]
    omega
  | [a, b, c], h => by
    have ha : a < 256 := h a (by simp)
    have hb : b < 256 := h b (by simp)
    have hc : c < 256 := h c (by simp)
    have e1 := b64idx_enc_of_lt (a / 4) (by omega)
    have e2 := b64idx_enc_of_lt (a % 4 * 16 + b / 16) (by omega)
    have e3 := b64idx_enc_of_lt (b % 16 * 4 + c / 64) (by omega)
    have e4 := b64idx_enc_of_lt (c % 64) (by omega)
    have n3 := b64enc_ne_pad_of_lt (b % 16 * 4 + c / 64) (by omega)
    have n4 := b64enc_ne_pad_of_lt (c % 64) (by omega)
    simp [base64encode, base64decode, e1, e2, e3, e4, n3, n4]
    omega

end ImageCsi

namespace ImageCsi

theorem sep_not_mem_splitOnByte (c : Nat) (s : GoStr) (p : GoStr)
    (hp : p ∈ splitOnByte c s) : c ∉ p := by
  induction s generalizing p with
  | nil =>
    simp only [splitOnByte, List.mem_singleton] at hp
    subst hp
    simp
  | cons x rest ih =>
    simp only [splitOnByte] at hp
    cases h : splitOnByte c rest with
    | nil => exact absurd h (splitOnByte_ne_nil c rest)
    | cons y t =>
      rw [h] at hp
      have hp2 : p ∈ (if x = c then [] :: y :: t else (x :: y) :: t) := hp
      clear hp
      have hymem : y ∈ splitOnByte c rest := by rw [h]; exact List.mem_cons_self _ _
      by_cases hx : x = c
      · rw [if_pos hx] at hp2
        simp only [List.mem_cons] at hp2
        rcases hp2 with rfl | rfl | hp2
        · simp
        · exact ih _ hymem
        · exact ih p (by rw [h]; exact List.mem_cons_of_mem _ hp2)
      · rw [if_neg hx] at hp2
        simp only [List.mem_cons] at hp2
        rcases hp2 with rfl | hp2
        · intro hc
          rcases List.mem_cons.mp hc with rfl | hc2
          · exact hx rfl
          · exact ih y hymem hc2
        · exact ih p (by rw [h]; exact List.mem_cons_of_mem _ hp2)

theorem headD_mem_of_ne_nil (l : List GoStr) (h : l ≠ []) : l.headD [] ∈ l := by
  cases l with
  | nil => exact absurd rfl h
  | cons a t => simp

theorem dropLast_append_getLastD (l : List GoStr) (h : l ≠ []) :
    l.dropLast ++ [l.getLastD []] = l := by
  induction l with
  | nil => exact absurd rfl h
  | cons x t ih =>
    cases t with
    | nil => simp [List.getLastD]
    | cons y t2 =>
      have ih2 := ih (by simp)
      simp only [List.getLastD_cons] at ih2 ⊢
      simp only [List.dropLast_cons₂, List.cons_append]
      rw [ih2]

end ImageCsi

namespace ImageCsi

theorem joinByte_append_single (c : Nat) (ms : List GoStr) (x : GoStr) :
    joinByte c (ms ++ [x]) = if ms = [] then x else joinByte c ms ++ c :: x := by
  induction ms with
  | nil => simp [joinByte]
  | cons m ms2 ih =>
    cases ms2 with
    | nil => simp [joinByte]
    | cons m2 t =>
      have e : (m :: m2 :: t) ++ [x] = m :: m2 :: (t ++ [x]) := by simp
      rw [e]
      have hj : joinByte c (m :: m2 :: (t ++ [x])) = m ++ c :: joinByte c (m2 :: (t ++ [x])) := rfl
      rw [hj]
      have e2 : m2 :: (t ++ [x]) = (m2 :: t) ++ [x] := by simp
      rw [e2, ih]
      simp [joinByte, List.append_assoc]

theorem isSuffixOf_append_self (u p : GoStr) : p.isSuffixOf (u ++ p) = true := by
  have : p <:+ u ++ p := List.suffix_append u p
  simpa using this

theorem take_front_of_append (u p : GoStr) :
    (u ++ p).take ((u ++ p).length - p.length) = u := by
  rw [List.length_append, Nat.add_sub_cancel]
  exact List.take_left u p

theorem trimPre_append_left (pre t : GoStr) : trimPre (pre ++ t) pre = t := by
  simp [trimPre, isPrefixOf_append_self, List.drop_left]

theorem normalizeAuthConfig_serverAddress (a : CriAuth) :
    (normalizeAuthConfig a).serverAddress = a.serverAddress := by
  simp only [normalizeAuthConfig]
  have hX : ∀ x : CriAuth,
      (if x.username ≠ [] ∧ x.password ≠ [] ∧ x.auth = [] then
        { x with auth := base64encode (x.username ++ 58 :: x.password) }
      else x).serverAddress = x.serverAddress := by
    intro x
    split <;> rfl
  rw [hX]
  split
  · split
    · split <;> rfl
    · rfl
  · rfl

theorem partsIn_mono (t b : GoStr) (ps : List GoStr) (h : PartsIn b ps) :
    PartsIn (t ++ b) ps := by
  induction h generalizing t with
  | nil s => exact PartsIn.nil _
  | cons a b2 p ps2 hb ih =>
    have : t ++ (a ++ p ++ b2) = (t ++ a) ++ p ++ b2 := by simp [List.append_assoc]
    rw [this]
    exact PartsIn.cons (t ++ a) b2 p ps2 hb

theorem partsIn_join (c : Nat) (l : List GoStr) (pre post : GoStr) :
    PartsIn (pre ++ joinByte c l ++ post) l := by
  induction l generalizing pre with
  | nil => exact PartsIn.nil _
  | cons p ls ih =>
    cases ls with
    | nil =>
      simpa [joinByte] using PartsIn.cons pre post p [] (PartsIn.nil post)
    | cons q ls2 =>
      have hj : joinByte c (p :: q :: ls2) = p ++ c :: joinByte c (q :: ls2) := rfl
      rw [hj]
      have hb := ih [c]
      have : pre ++ (p ++ c :: joinByte c (q :: ls2)) ++ post =
          pre ++ p ++ ([c] ++ joinByte c (q :: ls2) ++ post) := by
        simp [List.append_assoc]
      rw [this]
      exact PartsIn.cons pre ([c] ++ joinByte c (q :: ls2) ++ post) p (q :: ls2) hb

theorem matchMiddles_of_partsIn (s : GoStr) (ps : List GoStr) (h : PartsIn s ps) :
    matchMiddles s ps = true := by
  induction ps generalizing s with
  | nil => rfl
  | cons p rest ih =>
    cases h with
    | cons a b p2 ps2 hb =>
      by_cases hp : p = []
      · subst hp
        simp only [matchMiddles, if_pos rfl]
        have he : a ++ ([] : GoStr) ++ b = a ++ b := by simp
        rw [he]
        exact ih _ (partsIn_mono a b rest hb)
      · obtain ⟨i, t, hi, hd⟩ := idxOfSub_of_append a p b
        simp only [matchMiddles, if_neg hp, hi]
        rw [hd]
        exact ih _ (partsIn_mono t b rest hb)

end ImageCsi

namespace ImageCsi

theorem wildcardMatch_self (s : GoStr) : wildcardMatch s s = true := by
  have hjoin := joinByte_splitOnByte 42 s
  cases hp : splitOnByte 42 s with
  | nil => exact absurd hp (splitOnByte_ne_nil 42 s)
  | cons p0 rest =>
    rw [hp] at hjoin
    cases rest with
    | nil =>
      simp only [wildcardMatch, hp, List.length_singleton, if_pos rfl]
      simp
    | cons r1 rs =>
      have hlen : ¬((p0 :: r1 :: rs).length = 1) := by simp
      have hs : s = p0 ++ 42 :: joinByte 42 (r1 :: rs) := by
        rw [← hjoin]
        rfl
      simp only [wildcardMatch, hp, hlen, if_false, List.headD_cons, List.tail_cons]
      have hpre : p0.isPrefixOf s = true := by
        rw [hs]
        exact isPrefixOf_append_self p0 _
      rw [if_pos hpre]
      have hdrop : s.drop p0.length = 42 :: joinByte 42 (r1 :: rs) := by
        rw [hs]
        exact List.drop_left p0 _
      rw [hdrop]
      have hrsplit := dropLast_append_getLastD (r1 :: rs) (by simp)
      generalize hm : (r1 :: rs).dropLast = mids at hrsplit ⊢
      generalize hl : (r1 :: rs).getLastD [] = lastP at hrsplit ⊢
      rw [← hrsplit, joinByte_append_single]
      by_cases hmids : mids = []
      · rw [if_pos hmids]
        subst hmids
        by_cases hlast : lastP = []
        · rw [if_neg (not_not_intro hlast)]
          rfl
        · rw [if_pos hlast]
          rw [show (42 : Nat) :: lastP = [42] ++ lastP from rfl]
          rw [if_pos (isSuffixOf_append_self [42] lastP)]
          rw [take_front_of_append [42] lastP]
          rfl
      · rw [if_neg hmids]
        by_cases hlast : lastP = []
        · rw [if_neg (not_not_intro hlast)]
          subst hlast
          have hshape : (42 : Nat) :: (joinByte 42 mids ++ 42 :: ([] : GoStr)) =
              [42] ++ joinByte 42 mids ++ [42] := by simp
          rw [hshape]
          exact matchMiddles_of_partsIn _ _ (partsIn_join 42 mids [42] [42])
        · rw [if_pos hlast]
          have hshape : (42 : Nat) :: (joinByte 42 mids ++ 42 :: lastP) =
              ([42] ++ joinByte 42 mids ++ [42]) ++ lastP := by simp
          rw [hshape]
          rw [if_pos (isSuffixOf_append_self _ lastP)]
          rw [take_front_of_append _ lastP]
          exact matchMiddles_of_partsIn _ _ (partsIn_join 42 mids [42] [42])

end ImageCsi

namespace ImageCsi

/-- Claim C8 (corrected): wildcardMatch accepts every string against itself and
against the lone-star pattern, and rejects the empty string against every
nonempty pattern that does not begin with a star.  (The claim as stated also
covered the empty pattern, where the matcher returns true instead.) -/
theorem c8_wildcard_laws :
    (∀ s : GoStr, wildcardMatch s s = true) ∧
    (∀ s : GoStr, wildcardMatch s [42] = true) ∧
    (∀ p : GoStr, p ≠ [] → p.head? ≠ some 42 → wildcardMatch [] p = false) := by
  refine ⟨wildcardMatch_self, ?_, ?_⟩
  · intro s
    have hsp : splitOnByte 42 [42] = [[], []] := rfl
    simp [wildcardMatch, hsp, matchMiddles, List.isPrefixOf]
  · intro p hne hstar
    cases p with
    | nil => exact absurd rfl hne
    | cons b p2 =>
      have hb : ¬(b = 42) := by
        intro h
        exact hstar (by simp [h])
      cases hsp : splitOnByte 42 p2 with
      | nil => exact absurd hsp (splitOnByte_ne_nil 42 p2)
      | cons h t =>
        have hsplit : splitOnByte 42 (b :: p2) = (b :: h) :: t := by
          simp only [splitOnByte, hsp]
          rw [if_neg hb]
        cases t with
        | nil =>
          simp only [wildcardMatch, hsplit, List.length_singleton, if_pos rfl]
          simp
        | cons t1 t2 =>
          have hlen : ¬(((b :: h) :: t1 :: t2).length = 1) := by simp
          simp only [wildcardMatch, hsplit, hlen, if_false, List.headD_cons, List.tail_cons]
          rw [if_neg (show ¬((b :: h).isPrefixOf ([] : GoStr) = true) from by
            simp [List.isPrefixOf])]

/-- Claim C8 counterexample: the empty pattern does not begin with a star, yet
wildcardMatch of the empty string against it returns true, where the claim
demands false. -/
theorem c8_counterexample :
    ([] : GoStr).head? = (none : Option Nat) ∧ wildcardMatch ([] : GoStr) ([] : GoStr) = true :=
  ⟨rfl, by decide⟩

/-- Claim C8 witness: the third law applied at the concrete nonempty pattern a. -/
theorem c8_witness : wildcardMatch [] (goStr "a") = false :=
  c8_wildcard_laws.2.2 (goStr "a") (by decide) (by decide)

/-- Claim C3 (code_bug): extractRegistryDomain and the types.go splitImageName
realize the specified registry-domain rule for every reference, but the
part_002 revision of splitImageName returns the bare image name for the
slash-free reference nginx:latest, where the rule — and the package's own
TestSplitImageName — require docker.io. -/
theorem c3_registry_domain :
    (∀ r : GoStr, extractRegistryDomain r = registryDomainSpec r) ∧
    (∀ r : GoStr, splitImageName r = [registryDomainSpec r]) ∧
    splitImageNameV2 (goStr "nginx:latest") = [goStr "nginx:latest"] ∧
    registryDomainSpec (goStr "nginx:latest") = goStr "docker.io" ∧
    decide (goStr "nginx:latest" = goStr "docker.io") = false := by
  have hge : ∀ r : GoStr, ¬((splitOnByte 47 r).length = 1) → 2 ≤ (splitOnByte 47 r).length := by
    intro r h1
    have hnil := splitOnByte_ne_nil 47 r
    cases hsp : splitOnByte 47 r with
    | nil => exact absurd hsp hnil
    | cons a t =>
      rw [hsp] at h1
      simp only [List.length_cons] at h1 ⊢
      omega
  refine ⟨?_, ?_, by decide, by decide, by decide⟩
  · intro r
    simp only [extractRegistryDomain, registryDomainSpec]
    by_cases h1 : (splitOnByte 47 r).length = 1
    · rw [if_pos h1, if_neg (fun hc => by have := hc.1; rw [h1] at this; omega)]
    · rw [if_neg h1]
      by_cases h2 : containsDotColon ((splitOnByte 47 r).headD []) = true
      · rw [if_pos h2, if_pos ⟨hge r h1, h2⟩]
      · rw [if_neg h2, if_neg (fun hc => h2 hc.2)]
  · intro r
    simp only [splitImageName, registryDomainSpec]
    by_cases h1 : (splitOnByte 47 r).length = 1
    · rw [if_pos h1, if_neg (fun hc => by have := hc.1; rw [h1] at this; omega)]
    · rw [if_neg h1]
      by_cases h2 : containsDotColon ((splitOnByte 47 r).headD []) = true
      · rw [if_pos h2, if_pos ⟨hge r h1, h2⟩]
      · rw [if_neg h2, if_neg (fun hc => h2 hc.2)]

/-- Claim C9 (confirmed): whenever matchRegistry succeeds, the ServerAddress of
the returned candidate equals the queried registry domain, never the stored
config key. -/
theorem c9_server_address (cfg : List (GoStr × CriAuth)) (d : GoStr) (r : CriAuth)
    (h : matchRegistry cfg d = some r) : r.serverAddress = d := by
  cases h1 : lookupA cfg d with
  | some e =>
    simp only [matchRegistry, h1] at h
    obtain rfl := Option.some.inj h
    rw [normalizeAuthConfig_serverAddress]
    rfl
  | none =>
    cases h2 : lookupA cfg (goStr "https://" ++ d) with
    | some e =>
      simp only [matchRegistry, h1, h2] at h
      obtain rfl := Option.some.inj h
      rw [normalizeAuthConfig_serverAddress]
      rfl
    | none =>
      cases h3 : lookupA cfg (goStr "http://" ++ d) with
      | some e =>
        simp only [matchRegistry, h1, h2, h3] at h
        obtain rfl := Option.some.inj h
        rw [normalizeAuthConfig_serverAddress]
        rfl
      | none =>
        cases h4 : cfg.find? (fun kv => containsSub d kv.1 || containsSub kv.1 d) with
        | some kv =>
          simp only [matchRegistry, h1, h2, h3, h4] at h
          obtain rfl := Option.some.inj h
          rw [normalizeAuthConfig_serverAddress]
          rfl
        | none =>
          simp only [matchRegistry, h1, h2, h3, h4] at h
          exact absurd h (by simp)

/-- Claim C9 witness: the stored entry names another address, yet the candidate
returned for the concrete lookup carries the queried domain. -/
theorem c9_witness :
    (normalizeAuthConfig (copyEntry ⟨goStr "usr", goStr "pwd", [], goStr "other", [], []⟩
      (goStr "reg.example.com"))).serverAddress = goStr "reg.example.com" :=
  c9_server_address c9CfgW (goStr "reg.example.com") _ (by decide)

/-- Claim C7 (confirmed): matchRegistry applies its rules in order — exact key,
then the key with its https or http scheme stripped, then the first partial
substring match either way — and the first applicable rule determines the
returned candidate. -/
theorem c7_match_order (cfg : List (GoStr × CriAuth)) (d : GoStr) :
    (∀ e, lookupA cfg d = some e →
      matchRegistry cfg d = some (normalizeAuthConfig (copyEntry e d))) ∧
    (lookupA cfg d = none → ∀ e, lookupA cfg (goStr "https://" ++ d) = some e →
      matchRegistry cfg d = some (normalizeAuthConfig (copyEntry e d))) ∧
    (lookupA cfg d = none → lookupA cfg (goStr "https://" ++ d) = none →
      ∀ e, lookupA cfg (goStr "http://" ++ d) = some e →
      matchRegistry cfg d = some (normalizeAuthConfig (copyEntry e d))) ∧
    (lookupA cfg d = none → lookupA cfg (goStr "https://" ++ d) = none →
      lookupA cfg (goStr "http://" ++ d) = none →
      matchRegistry cfg d =
        (cfg.find? (fun kv => containsSub d kv.1 || containsSub kv.1 d)).map
          (fun kv => normalizeAuthConfig (copyEntry kv.2 d))) := by
  refine ⟨?_, ?_, ?_, ?_⟩
  · intro e h1
    simp [matchRegistry, h1]
  · intro h1 e h2
    simp [matchRegistry, h1, h2]
  · intro h1 h2 e h3
    simp [matchRegistry, h1, h2, h3]
  · intro h1 h2 h3
    simp only [matchRegistry, h1, h2, h3]
    cases h4 : cfg.find? (fun kv => containsSub d kv.1 || containsSub kv.1 d) <;> simp [h4]

/-- Claim C7 witness: the exact-key rule fires first on a concrete config. -/
theorem c7_witness :
    matchRegistry c7CfgW (goStr "reg.example.com") =
      some (normalizeAuthConfig (copyEntry c7EntryW (goStr "reg.example.com"))) :=
  (c7_match_order c7CfgW (goStr "reg.example.com")).1 c7EntryW (by decide)

/-- Claim C2 counterexample: with non-empty per-mount secretData whose docker
config does not parse, keyringStore.GetDockerKeyring returns an error instead
of an empty candidate list. -/
theorem c2_counterexample :
    getDockerKeyringStore (KeyringM.basic []) (fun _ => none) (fun _ => none)
      [(dockerConfigJsonKey, goStr "notjson")] = Except.error () := rfl

/-- Claim C2 (corrected): GetDockerKeyring returns no error when the per-mount
secretData is empty or parses — daemon-side failures never reach it — but
non-empty unparseable secretData is returned as an error, not as an empty
candidate list. -/
theorem c2_keyring_store (daemon : KeyringM) (pj pc : GoStr → Option DockerConfigM)
    (secretData : List (GoStr × GoStr)) :
    (secretData = [] →
      getDockerKeyringStore daemon pj pc secretData =
        Except.ok (KeyringM.union [daemon, KeyringM.basic []])) ∧
    (∀ cfg, secretData ≠ [] →
      parseDockerConfigFromSecretData pj pc secretData = Except.ok cfg →
      getDockerKeyringStore daemon pj pc secretData =
        Except.ok (KeyringM.union [KeyringM.basic [cfg], daemon])) ∧
    (secretData ≠ [] → parseDockerConfigFromSecretData pj pc secretData = Except.error () →
      getDockerKeyringStore daemon pj pc secretData = Except.error ()) := by
  refine ⟨?_, ?_, ?_⟩
  · intro h
    subst h
    rfl
  · intro cfg hne hok
    simp [getDockerKeyringStore, makeDockerKeyringFromMap, hne, hok]
  · intro hne herr
    simp [getDockerKeyringStore, makeDockerKeyringFromMap, hne, herr]

/-- Claim C2 witness: empty secretData yields the daemon keyring paired with a
fresh empty keyring, without error. -/
theorem c2_witness :
    getDockerKeyringStore (KeyringM.basic []) (fun _ => none) (fun _ => none) [] =
      Except.ok (KeyringM.union [KeyringM.basic [], KeyringM.basic []]) :=
  (c2_keyring_store (KeyringM.basic []) (fun _ => none) (fun _ => none) []).1 rfl

/-- Claim C10 (confirmed): GetCredentialFromPlugin never returns an error; a
non-matching, failing or credential-less plugin is skipped and the next tried;
when no plugin yields credentials the result is no credentials without error. -/
theorem c10_plugin_no_error (callP : PluginConfig → Except Unit (Option CriAuth))
    (plugins : List PluginConfig) (image : GoStr) :
    (∃ r, GetCredentialFromPlugin callP plugins image = Except.ok r) ∧
    (GetCredentialFromPlugin callP [] image = Except.ok none) ∧
    (∀ p rest, (matchesImagePattern image p.matchImages = false ∨
        callP p = Except.error () ∨ callP p = Except.ok none) →
      GetCredentialFromPlugin callP (p :: rest) image =
        GetCredentialFromPlugin callP rest image) ∧
    (∀ p rest a, matchesImagePattern image p.matchImages = true →
      callP p = Except.ok (some a) →
      GetCredentialFromPlugin callP (p :: rest) image = Except.ok (some a)) ∧
    ((∀ p ∈ plugins, matchesImagePattern image p.matchImages = false ∨
        callP p = Except.error () ∨ callP p = Except.ok none) →
      GetCredentialFromPlugin callP plugins image = Except.ok none) := by
  refine ⟨?_, rfl, ?_, ?_, ?_⟩
  · induction plugins with
    | nil => exact ⟨none, rfl⟩
    | cons p rest ih =>
      simp only [GetCredentialFromPlugin]
      by_cases hm : matchesImagePattern image p.matchImages = false
      · rw [if_pos hm]
        exact ih
      · rw [if_neg hm]
        cases hc : callP p with
        | error e => exact ih
        | ok o =>
          cases o with
          | none => exact ih
          | some a => exact ⟨some a, rfl⟩
  · intro p rest h
    simp only [GetCredentialFromPlugin]
    by_cases hm : matchesImagePattern image p.matchImages = false
    · rw [if_pos hm]
    · rw [if_neg hm]
      rcases h with h | h | h
      · exact absurd h hm
      · rw [h]
      · rw [h]
  · intro p rest a hm hc
    simp only [GetCredentialFromPlugin]
    rw [if_neg (by rw [hm]; simp), hc]
  · induction plugins with
    | nil => intro _; rfl
    | cons p rest ih =>
      intro hall
      have hrec := ih (fun q hq => hall q (List.mem_cons_of_mem _ hq))
      simp only [GetCredentialFromPlugin]
      by_cases hm : matchesImagePattern image p.matchImages = false
      · rw [if_pos hm]
        exact hrec
      · rw [if_neg hm]
        rcases hall p (List.mem_cons_self _ _) with h | h | h
        · exact absurd h hm
        · rw [h]
          exact hrec
        · rw [h]
          exact hrec

/-- Claim C10 witness: one registered plugin whose invocation always fails is
skipped and the call ends with no credentials and no error. -/
theorem c10_witness :
    GetCredentialFromPlugin (fun _ => Except.error ()) [c10PluginW] (goStr "img") =
      Except.ok none :=
  (c10_plugin_no_error (fun _ => Except.error ()) [c10PluginW] (goStr "img")).2.2.2.2
    (fun _ _ => Or.inr (Or.inl rfl))

end ImageCsi

namespace ImageCsi

/-- Claim C4 counterexample: a candidate whose auth field disagrees with its
populated username/password fires neither normalization rule, and after
normalization the base64 decoding of auth is not username:password. -/
theorem c4_counterexample :
    decide (base64decode ((normalizeAuthConfig c4AuthX).auth) =
      some ((normalizeAuthConfig c4AuthX).username ++ 58 ::
        (normalizeAuthConfig c4AuthX).password)) = false := by
  decide

/-- Claim C4 (corrected): for every candidate on which one of the two
normalization rules fires — auth absent with username and password present, or
username and password absent with auth base64-decoding to a colon-separated
pair — the base64 decoding of the normalized auth equals the normalized
username:password.  Candidates firing neither rule are left unchanged and need
not satisfy the relation. -/
theorem c4_normalize (a : CriAuth) (hwf : wellFormedCred a)
    (hbytes : (∀ x ∈ a.username, x < 256) ∧ (∀ x ∈ a.password, x < 256)) :
    base64decode ((normalizeAuthConfig a).auth) =
      some ((normalizeAuthConfig a).username ++ 58 :: (normalizeAuthConfig a).password) := by
  rcases hwf with ⟨hauth, hu, hp⟩ | ⟨hu, hp, d, u, p, hdec, hsplit⟩
  · have h1 : ¬(a.auth ≠ [] ∧ a.username = [] ∧ a.password = []) := fun hc => hc.1 hauth
    simp only [normalizeAuthConfig, if_neg h1]
    rw [if_pos ⟨hu, hp, hauth⟩]
    exact base64_roundtrip _ (by
      intro x hx
      rcases List.mem_append.mp hx with hx | hx
      · exact hbytes.1 x hx
      · rcases List.mem_cons.mp hx with rfl | hx
        · omega
        · exact hbytes.2 x hx)
  · have hane : a.auth ≠ [] := by
      intro h0
      rw [h0] at hdec
      have h1 : (some ([] : GoStr)) = some d := hdec
      have hd0 : d = [] := (Option.some.inj h1).symm
      rw [hd0] at hsplit
      simp [splitN2Byte] at hsplit
    have hcond : a.auth ≠ [] ∧ a.username = [] ∧ a.password = [] := ⟨hane, hu, hp⟩
    simp only [normalizeAuthConfig, if_pos hcond, hdec, hsplit]
    rw [if_neg (fun hc => hane hc.2.2)]
    show base64decode a.auth = some (u ++ 58 :: p)
    rw [hdec, splitN2Byte_eq_two 58 d u p hsplit]

/-- Claim C4 witness: the encode rule at a concrete candidate holding only a
username and password. -/
theorem c4_witness :
    base64decode ((normalizeAuthConfig c4AuthW).auth) =
      some ((normalizeAuthConfig c4AuthW).username ++ 58 ::
        (normalizeAuthConfig c4AuthW).password) :=
  c4_normalize c4AuthW (Or.inl (by decide)) ⟨by decide, by decide⟩

/-- Claim C5 counterexample: for an ECR provider candidate the pull performs a
single attempt whose auth is the re-encoding base64 of AWS:decoded-token; no
second attempt carries the provider's original encoding, contrary to the
claimed additional candidate alongside it. -/
theorem c5_counterexample :
    (Pull c5PullerX).1 =
      [some { username := goStr "AWS", password := goStr "tok",
              auth := base64encode (goStr "AWS:tok"),
              serverAddress := goStr "1.dkr.ecr.r.amazonaws.com",
              identityToken := [], registryToken := [] }] ∧
    decide (base64encode (goStr "AWS:tok") = base64encode (goStr "AWS:dG9r")) = false := by
  exact ⟨by decide, by decide⟩

/-- Claim C5 (corrected): a candidate with empty auth, username AWS, an ECR
registry domain and a base64-decodable password is formatted into one auth
record whose password is the decoded token text and whose auth is the base64 of
AWS: followed by the decoded token text — replacing the provider's original
encoding rather than accompanying it. -/
theorem c5_ecr_encoding (registryDomain : GoStr) (c : AuthCfg) (decoded : GoStr)
    (hauth : c.auth = []) (hu : c.username = goStr "AWS")
    (h1 : containsSub registryDomain (goStr ".dkr.ecr.") = true)
    (h2 : containsSub registryDomain (goStr ".amazonaws.com") = true)
    (hdec : base64decode c.password = some decoded) :
    formatRegistryAuth registryDomain c =
      { username := goStr "AWS", password := decoded,
        auth := base64encode (goStr "AWS" ++ 58 :: decoded),
        serverAddress := registryDomain, identityToken := [],
        registryToken := c.registryToken } := by
  simp only [formatRegistryAuth, if_neg (not_not_intro hauth)]
  have hecr : (containsSub registryDomain (goStr ".dkr.ecr.") &&
      (containsSub registryDomain (goStr ".amazonaws.com") &&
        decide (c.username = goStr "AWS"))) = true := by
    rw [h1, h2, hu]
    simp
  simp only [h1, h2, hu, hdec]
  simp

/-- Claim C5 witness: the re-encoding rule evaluated at the concrete ECR
candidate. -/
theorem c5_witness :
    formatRegistryAuth (goStr "1.dkr.ecr.r.amazonaws.com") c5CandX =
      { username := goStr "AWS", password := goStr "tok",
        auth := base64encode (goStr "AWS" ++ 58 :: goStr "tok"),
        serverAddress := goStr "1.dkr.ecr.r.amazonaws.com", identityToken := [],
        registryToken := [] } :=
  c5_ecr_encoding (goStr "1.dkr.ecr.r.amazonaws.com") c5CandX (goStr "tok")
    (by decide) (by decide) (by decide) (by decide) (by decide)

end ImageCsi

namespace ImageCsi

theorem pullLoop_trace {Err : Type} (respond : Option CriAuth → Option Err)
    (rd : GoStr) (cands : List AuthCfg) :
    (pullLoop respond rd cands).1 =
      (cands.map (formatRegistryAuth rd)).take
        (((cands.map (formatRegistryAuth rd)).takeWhile
          (fun a => (respond (some a)).isSome)).length + 1) := by
  induction cands with
  | nil => rfl
  | cons c rest ih =>
    simp only [pullLoop, List.map_cons]
    cases hr : respond (some (formatRegistryAuth rd c)) with
    | none => simp [List.takeWhile_cons, hr]
    | some e => simp [List.takeWhile_cons, hr, ih]

theorem pullLoop_ok {Err : Type} (respond : Option CriAuth → Option Err)
    (rd : GoStr) (cands : List AuthCfg) :
    (pullLoop respond rd cands).2.2 =
      (cands.map (formatRegistryAuth rd)).any (fun a => (respond (some a)).isNone) := by
  induction cands with
  | nil => rfl
  | cons c rest ih =>
    simp only [pullLoop, List.map_cons, List.any_cons]
    cases hr : respond (some (formatRegistryAuth rd c)) with
    | none => simp [hr]
    | some e => simp [hr, ih]

theorem pullLoop_allFail {Err : Type} (respond : Option CriAuth → Option Err)
    (rd : GoStr) (cands : List AuthCfg)
    (h : ∀ a ∈ cands.map (formatRegistryAuth rd), (respond (some a)).isSome = true) :
    pullLoop respond rd cands =
      (cands.map (formatRegistryAuth rd),
       (cands.map (formatRegistryAuth rd)).filterMap (fun a => respond (some a)),
       false) := by
  induction cands with
  | nil => rfl
  | cons c rest ih =>
    have hc := h (formatRegistryAuth rd c) (by simp)
    cases hr : respond (some (formatRegistryAuth rd c)) with
    | none =>
      rw [hr] at hc
      simp at hc
    | some e =>
      have ih2 := ih (fun a ha => h a (by simp [ha]))
      simp only [pullLoop, hr, List.map_cons, List.filterMap_cons, ih2]

/-- Claim C1 (corrected): remoteimage.Pull issues exactly one anonymous pull
when the keyring lookup reports no credentials, and with credentials it formats
and tries the candidates in list order, stopping at the first success, never
issuing an anonymous pull; on exhaustion it returns the aggregate of the
candidate attempt errors (the empty aggregate meaning success).  The claim's
final anonymous attempt after exhausting a non-empty list does not exist. -/
theorem c1_pull_walk {Err : Type} (p : PullerM Err) :
    ((p.lookup p.imageWithoutTag).2 = false →
      (Pull p).1 = [none] ∧
      (Pull p).2 = (match p.respond none with
                    | none => PullRes.ok
                    | some e => PullRes.single e)) ∧
    ((p.lookup p.imageWithoutTag).2 = true →
      (Pull p).1 = ((pullFmts p).map some).take
          (((pullFmts p).takeWhile (fun a => (p.respond (some a)).isSome)).length + 1) ∧
      none ∉ (Pull p).1 ∧
      ((∃ a ∈ pullFmts p, p.respond (some a) = none) → (Pull p).2 = PullRes.ok) ∧
      ((∀ a ∈ pullFmts p, (p.respond (some a)).isSome = true) →
        (Pull p).2 = (match (pullFmts p).filterMap (fun a => p.respond (some a)) with
                      | [] => PullRes.ok
                      | e :: es => PullRes.agg (e :: es)))) := by
  constructor
  · intro h
    simp only [Pull, h]
    exact ⟨rfl, rfl⟩
  · intro h
    have htrace : (Pull p).1 = ((pullFmts p).map some).take
        (((pullFmts p).takeWhile (fun a => (p.respond (some a)).isSome)).length + 1) := by
      simp only [Pull, h]
      rw [if_neg (by simp)]
      show (pullLoop p.respond (extractRegistryDomain p.imageWithoutTag)
          (p.lookup p.imageWithoutTag).1).1.map some = _
      rw [pullLoop_trace, List.map_take]
      rfl
    refine ⟨htrace, ?_, ?_, ?_⟩
    · rw [htrace]
      intro hmem
      have hmem2 := List.mem_of_mem_take hmem
      obtain ⟨x, _, hx⟩ := List.mem_map.mp hmem2
      exact Option.noConfusion hx
    · intro ⟨a, ha, hra⟩
      simp only [Pull, h]
      rw [if_neg (by simp)]
      have hok : (pullLoop p.respond (extractRegistryDomain p.imageWithoutTag)
          (p.lookup p.imageWithoutTag).1).2.2 = true := by
        rw [pullLoop_ok]
        exact List.any_eq_true.mpr ⟨a, ha, by rw [hra]; rfl⟩
      rw [hok]
      rfl
    · intro hall
      simp only [Pull, h]
      rw [if_neg (by simp)]
      rw [pullLoop_allFail p.respond _ _ hall]
      rfl

/-- Claim C1 counterexample: with a non-empty candidate list whose single
candidate fails, Pull makes exactly one authenticated attempt and returns the
aggregate error; no final anonymous pull is attempted, contrary to the claim. -/
theorem c1_counterexample :
    (Pull c1PullerX).1 = [some (formatRegistryAuth (goStr "reg.io") c1CandX)] ∧
    decide ((none : Option CriAuth) ∈ (Pull c1PullerX).1) = false ∧
    (Pull c1PullerX).2 = PullRes.agg [7] := by
  exact ⟨by decide, by decide, by decide⟩

/-- Claim C1 witness: a puller whose keyring reports no credentials performs a
single anonymous pull. -/
theorem c1_witness :
    (Pull c1PullerW).1 = [none] ∧ (Pull c1PullerW).2 = PullRes.ok :=
  (c1_pull_walk c1PullerW).1 rfl

end ImageCsi

namespace ImageCsi

theorem extractServerURL_shape (image : GoStr) :
    ∃ host, extractServerURL image = Except.ok (goStr "https://" ++ host) ∧ 58 ∉ host := by
  have hnoc : (58 : Nat) ∉ (splitOnByte 58 ((splitOnByte 64 image).headD [])).headD [] :=
    sep_not_mem_splitOnByte 58 _ _
      (headD_mem_of_ne_nil _ (splitOnByte_ne_nil _ _))
  have hheadnoc : (58 : Nat) ∉
      (splitOnByte 47 ((splitOnByte 58 ((splitOnByte 64 image).headD [])).headD [])).headD [] := by
    intro hc
    exact hnoc (mem_of_mem_splitOnByte 47 _ _ 58
      (headD_mem_of_ne_nil _ (splitOnByte_ne_nil _ _)) hc)
  simp only [extractServerURL]
  by_cases h1 : (splitOnByte 47 ((splitOnByte 58 ((splitOnByte 64 image).headD [])).headD [])).length = 1
  · rw [if_pos h1]
    exact ⟨goStr "index.docker.io", congrArg Except.ok (by decide), by decide⟩
  · rw [if_neg h1]
    by_cases h2 : containsDotColon
        ((splitOnByte 47 ((splitOnByte 58 ((splitOnByte 64 image).headD [])).headD [])).headD []) = true
    · rw [if_pos h2]
      exact ⟨_, rfl, hheadnoc⟩
    · have hge : 2 ≤ (splitOnByte 47 ((splitOnByte 58 ((splitOnByte 64 image).headD [])).headD [])).length := by
        have hnil := splitOnByte_ne_nil 47 ((splitOnByte 58 ((splitOnByte 64 image).headD [])).headD [])
        cases hsp : splitOnByte 47 ((splitOnByte 58 ((splitOnByte 64 image).headD [])).headD []) with
        | nil => exact absurd hsp hnil
        | cons a t =>
          rw [hsp] at h1
          simp only [List.length_cons] at h1 ⊢
          omega
      rw [if_neg h2, if_pos ⟨hge, fun hc => h2 hc⟩]
      exact ⟨goStr "index.docker.io", congrArg Except.ok (by decide), by decide⟩

/-- Claim C6 (confirmed): for a provider whose executable basename begins with
docker-credential-, the helper is spawned with argument vector [get] and
receives the bare scheme-free registry host plus a newline on stdin; a failed
run whose stderr contains credentials not found yields no candidate and no
error. -/
theorem c6_helper_protocol (run : Invocation → ExecOutcome)
    (jsonHelper : GoStr → Option HelperOutput) (osR : Bool) (plugin : PluginConfig)
    (image : GoStr)
    (hbase : isDockerCredentialHelper plugin.executable = true) :
    ∃ host inv,
      extractServerURL image = Except.ok (goStr "https://" ++ host) ∧
      (callDockerCredentialHelper run jsonHelper osR plugin image).2 = some inv ∧
      inv.args = [goStr "get"] ∧
      inv.stdin = host ++ [10] ∧
      (goStr "https://").isPrefixOf host = false ∧
      ((run inv).waitErr = true →
        containsSub (run inv).stderr (goStr "credentials not found") = true →
        (callDockerCredentialHelper run jsonHelper osR plugin image).1 = Except.ok none) := by
  obtain ⟨host, hok, hcolon⟩ := extractServerURL_shape image
  have htrim : trimPre (goStr "https://" ++ host) (goStr "https://") = host :=
    trimPre_append_left _ _
  have hnopre : (goStr "https://").isPrefixOf host = false := by
    cases hcb : (goStr "https://").isPrefixOf host
    · rfl
    · exact absurd (mem_of_isPrefixOf _ _ hcb 58 (by decide)) hcolon
  refine ⟨host,
    credentialHelperInvocation
      (if isECRCredentialHelper plugin.executable = true then
        enrichECREnvironment osR plugin (goStr "https://" ++ host)
      else plugin) host, hok, ?_, rfl, rfl, hnopre, ?_⟩
  · simp only [callDockerCredentialHelper, hok, htrim]
    repeat' split
    all_goals rfl
  · intro hw hcnf
    have hstderr : (run (credentialHelperInvocation
        (if isECRCredentialHelper plugin.executable = true then
          enrichECREnvironment osR plugin (goStr "https://" ++ host)
        else plugin) host)).stderr ≠ [] := by
      intro h0
      rw [h0] at hcnf
      rw [containsSub_nil_false (goStr "credentials not found") (by decide)] at hcnf
      exact Bool.false_ne_true hcnf
    simp only [callDockerCredentialHelper, hok, htrim]
    rw [if_pos hw, if_pos ⟨hstderr, Or.inl hcnf⟩]

/-- Claim C6 witness: a concrete helper run that exits nonzero with the
credentials-not-found message yields no candidate and no error. -/
theorem c6_witness :
    (callDockerCredentialHelper c6RunW (fun _ => none) false c6PluginW
      (goStr "reg.io/app")).1 = Except.ok none := by
  obtain ⟨host, inv, h1, h2, h3, h4, h5, h6⟩ :=
    c6_helper_protocol c6RunW (fun _ => none) false c6PluginW (goStr "reg.io/app")
      (by decide)
  have hc : containsSub (goStr "credentials not found") (goStr "credentials not found") = true := by
    decide
  exact h6 rfl hc

end ImageCsi
